import Mathlib

/-!
Shallow embedding of `jwst/model_blender/blendrules.py`.

Python dict/str operations are modelled explicitly:
  * `"x" in s` for a string `s` is a substring test (`pyInStr`);
  * `"x" in d` for a dict `d` is a key test (`List.lookup`);
  * indexing a string with a string key raises `TypeError`
    (modelled as `Except.error "TypeError"`);
  * dicts are association lists with unique keys, ordered-dict
    update keeps the position of an existing key and appends new keys.
Functions stored in `blender_funcs` are modelled by the inductive `Func`;
note that `mintime`/`mindate`/`mindatetime` all map to the same Python
builtin `min` (and the `max*` names to builtin `max`), which matters for
structural equality of compiled-rule tuples.
-/

namespace BlendRules

/-- `listPrefixOf needle hay` : `needle` is a prefix of `hay` (on char lists). -/
def listPrefixOf : List Char → List Char → Bool
  | [], _ => true
  | _ :: _, [] => false
  | a :: as, b :: bs => a == b && listPrefixOf as bs

/-- `listSubstr needle hay` : `needle` occurs contiguously inside `hay`. -/
def listSubstr (needle : List Char) : List Char → Bool
  | [] => listPrefixOf needle []
  | c :: rest => listPrefixOf needle (c :: rest) || listSubstr needle rest

/-- Python `needle in hay` for strings: substring containment. -/
def pyInStr (needle hay : String) : Bool :=
  listSubstr needle.toList hay.toList

/-- `multi(vals)` from blendrules.py: common value of a list of identical
values, `None` for an empty list, the sentinel `"MULTIPLE"` otherwise.
`list(set(vals))` is modelled by `List.dedup` (only the number of distinct
values and the single-value case matter). -/
def multi (vals : List String) : Option String :=
  let uniq_vals := vals.dedup
  let num_vals := uniq_vals.length
  if num_vals = 0 then none
  else if num_vals = 1 then uniq_vals.head?
  else if num_vals > 1 then some "MULTIPLE"
  else none

/-- `first(items)` from blendrules.py: `items[0]` if `len(items)`, else `None`. -/
def first {α : Type} (items : List α) : Option α :=
  if items.length ≠ 0 then items.head? else none

/-- `last(items)` from blendrules.py: `items[-1]` if `len(items)`, else `None`. -/
def last {α : Type} (items : List α) : Option α :=
  if items.length ≠ 0 then items.getLast? else none

/-- The distinct function objects stored in the `blender_funcs` table.
`pyMin`/`pyMax` are the Python builtins `min`/`max`, shared by all the
date/time rule names. -/
inductive Func where
  | first
  | last
  | multi
  | npMean
  | npSum
  | npMax
  | npMin
  | pyMin
  | pyMax
deriving DecidableEq, Repr

/-- The `blender_funcs` translation dictionary (rule name → function). -/
def blender_funcs : List (String × Func) :=
  [("first", Func.first), ("last", Func.last), ("multi", Func.multi),
   ("mean", Func.npMean), ("sum", Func.npSum),
   ("max", Func.npMax), ("min", Func.npMin),
   ("mintime", Func.pyMin), ("maxtime", Func.pyMax),
   ("mindate", Func.pyMin), ("maxdate", Func.pyMax),
   ("mindatetime", Func.pyMin), ("maxdatetime", Func.pyMax)]

/-- `name in blender_funcs` / `blender_funcs[name]` combined: registry lookup. -/
def lookupFunc (name : String) : Option Func :=
  blender_funcs.lookup name

/-- A compiled rule tuple: `(kw1, kw2)` for a table column, or
`(kw1, kw2, lrule)` where `lrule` may be `None` (Python keeps the third
slot even when the named function is not registered). -/
inductive CompiledRule where
  | pair (kw1 kw2 : String)
  | triple (kw1 kw2 : String) (f : Option Func)
deriving DecidableEq, Repr

/-- The value part of a raw rule-spec line: either a plain string
(table-column target) or a dict such as `{"rule": "first"}`. -/
inductive LineSpec where
  | str (s : String)
  | dict (entries : List (String × String))
deriving DecidableEq, Repr

/-- A raw rule-spec line `{attr: line_spec}` (always a single-entry dict
in this code base). -/
structure Line where
  attr : String
  spec : LineSpec
deriving DecidableEq, Repr

/-- `if new_rule not in rules: rules.append(new_rule)`. -/
def appendUnique (rs : List CompiledRule) (r : CompiledRule) : List CompiledRule :=
  if r ∈ rs then rs else rs ++ [r]

/-- `interpret_attr_line(attr, line_spec)`.  For a dict spec, `"rule" in
line_spec` is a key test; for a string spec it is a substring test and the
following `line_spec["rule"]` raises `TypeError` (string index with a
string key), modelled as `Except.error`. -/
def interpret_attr_line (attr : String) (line_spec : LineSpec) :
    Except String (List CompiledRule) := do
  let kws := [attr]
  let kws2 := match line_spec with
    | LineSpec.dict _ => kws
    | LineSpec.str s => [s]
  let lrule : Option String ← match line_spec with
    | LineSpec.dict d => pure (d.lookup "rule")
    | LineSpec.str s =>
        if pyInStr "rule" s then Except.error "TypeError" else pure none
  match lrule with
  | some r =>
      if r.length > 0 then
        let lruleF := lookupFunc r
        pure ((kws.zip kws2).foldl
          (fun rs p => appendUnique rs (CompiledRule.triple p.1 p.2 lruleF)) [])
      else
        pure ((kws.zip kws2).foldl
          (fun rs p => appendUnique rs (CompiledRule.pair p.1 p.2)) [])
  | none =>
      pure ((kws.zip kws2).foldl
        (fun rs p => appendUnique rs (CompiledRule.pair p.1 p.2)) [])

/-- `interpret_entry(line, hdr)`: parses the raw line; `section_name`
stays `None`; the header argument is never inspected. -/
def interpret_entry {H : Type} (line : Line) (_hdr : H) :
    Except String (List CompiledRule × Option String) := do
  let attr_rules ← interpret_attr_line line.attr line.spec
  pure (attr_rules, none)

/-- The mutable state of a `KwRule` object. -/
structure KwRule where
  rule_spec : Line
  rules : List CompiledRule
  delete_kws : List String
  section_name : List String
deriving DecidableEq, Repr

/-- `KwRule.__init__(line)`. -/
def KwRule.mk0 (line : Line) : KwRule :=
  { rule_spec := line, rules := [], delete_kws := [], section_name := [] }

/-- `KwRule.interpret(hdr)`: early return when `self.rules` is already
non-empty; otherwise interpret the raw spec (a raised exception
propagates), record a truthy section name, and set `self.rules` when the
interpretation produced rules. -/
def KwRule.interpret {H : Type} (s : KwRule) (hdr : H) : Except String KwRule :=
  if s.rules ≠ [] then pure s
  else do
    let (irules, sname) ← interpret_entry s.rule_spec hdr
    let s1 := match sname with
      | some n =>
          if n.length > 0 then { s with section_name := s.section_name ++ [n] }
          else s
      | none => s
    if irules ≠ [] then pure { s1 with rules := irules } else pure s1

/-- The mutable state of a `KeywordRules` object.  `rule_specs` is the
ordered mapping attribute path ↦ list of raw rule-spec lines produced by
`_build_schema_rules_dict`. -/
structure KeywordRules where
  instrument : String
  rule_specs : List (String × List Line)
  rule_objects : List KwRule
  rules : List CompiledRule
  section_names : List String
deriving DecidableEq, Repr

/-- Body of the inner loop of `KeywordRules.interpret_rules` for a single
raw rule-spec line: build a fresh `KwRule`, test it against the recorded
`rule_objects` (which the source never appends to), and if it is not a
duplicate, interpret it against every header and extend `self.rules`. -/
def processSpec {H : Type} (hdrs : List H) (st : KeywordRules) (rule : Line) :
    Except String KeywordRules :=
  let kwr0 := KwRule.mk0 rule
  let duplicate_rule :=
    st.rule_objects.any (fun robj => decide (robj.rule_spec = kwr0.rule_spec))
  if duplicate_rule then pure st
  else do
    let kwr ← hdrs.foldlM KwRule.interpret kwr0
    pure { st with rules := st.rules ++ kwr.rules }

/-- `KeywordRules.interpret_rules(hdrs)` (with `hdrs` already a list):
loop over every spec list of `rule_specs` and process each line. -/
def interpret_rules {H : Type} (st : KeywordRules) (hdrs : List H) :
    Except String KeywordRules :=
  st.rule_specs.foldlM
    (fun s p => p.2.foldlM (processSpec hdrs) s) st

/-- `KeywordRules.merge(kwrules)` with `kwrules` already reduced to a raw
rule list (a `KeywordRules` argument contributes its `.rules`): collect
the rules of `kwrules` missing from `self.rules` into `k`, then extend. -/
def merge (st : KeywordRules) (kwrules : List CompiledRule) : KeywordRules :=
  let k := kwrules.foldl
    (fun acc r => if r ∈ st.rules then acc else acc ++ [r]) []
  { st with rules := st.rules ++ k }

/-- The attribute-update loop of `KeywordRules.apply`: iterate over the
flattened attributes of the copied template and overwrite the value when
the attribute path contains `"meta"` as a substring and is a key of the
blended dict `fbdict`.  The template is its own flat dict (keys are the
paths already present in the copy); no new key is ever created. -/
def upd_attr {V : Type} (fbdict : List (String × V)) (p : String × V) :
    String × V :=
  if pyInStr "meta" p.1 then
    match fbdict.lookup p.1 with
    | some w => (p.1, w)
    | none => p
  else p

/-- The whole update loop of `apply`, as a map over the template
flattened attributes (keys of the copy; no new key is ever created). -/
def apply_update {V : Type} (template : List (String × V))
    (fbdict : List (String × V)) : List (String × V) :=
  template.map (upd_attr fbdict)

/-! ### Schema rule extraction (`_build_schema_rules_dict`) -/

/-- The fields of a leaf subschema that `build_rules_dict` inspects.
`props` is the truthiness of `subschema.get("properties")`. -/
structure SubSchema where
  props : Bool
  blend_rule : Option String
  blend_table : Bool
  fits_keyword : Option String
deriving DecidableEq, Repr

/-- The ordered dict of extracted rule specs: attribute path ↦ spec list. -/
abbrev RulesDict : Type := List (String × List Line)

/-- `results.get(attr)`: first (only) binding for the key. -/
def odGet (d : RulesDict) (k : String) : Option (List Line) :=
  match d with
  | [] => none
  | p :: rest => if p.1 = k then some p.2 else odGet rest k

/-- `results[attr] = v`: replace the value of an existing key in place,
otherwise append the new binding at the end (ordered-dict semantics). -/
def odSet (d : RulesDict) (k : String) (v : List Line) : RulesDict :=
  match d with
  | [] => [(k, v)]
  | p :: rest => if p.1 = k then (k, v) :: rest else p :: odSet rest k v

/-- Python truthiness of `results.get(attr)` (absent or empty list). -/
def pyFalsy (o : Option (List Line)) : Bool :=
  match o with
  | none => true
  | some l => l.isEmpty

/-- `path[:path.index(combiner)]` for the first combiner found, trying
`"anyOf"` then `"oneOf"`. -/
def trimPath (path : List String) : List String :=
  if "anyOf" ∈ path then path.takeWhile (fun s => s ≠ "anyOf")
  else if "oneOf" ∈ path then path.takeWhile (fun s => s ≠ "oneOf")
  else path

/-- The specs one leaf visit appends to `result` after the initial
`results.get(attr, [])`: the optional reduction rule spec (explicit if
`blend_rule` is truthy, the default `{"rule": "first"}` if nothing has
been recorded yet for this attribute, nothing otherwise), then the
optional table-column spec `{attr: kwname}` when `blend_table` is
truthy. -/
def new_specs (results : RulesDict) (attr : String) (ss : SubSchema) :
    List Line :=
  let kwname := ss.fits_keyword.getD attr
  let rule_spec : Option Line :=
    match ss.blend_rule with
    | some r =>
        if r.length > 0 then some ⟨attr, LineSpec.dict [("rule", r)]⟩
        else if pyFalsy (odGet results attr) then
          some ⟨attr, LineSpec.dict [("rule", "first")]⟩
        else none
    | none =>
        if pyFalsy (odGet results attr) then
          some ⟨attr, LineSpec.dict [("rule", "first")]⟩
        else none
  rule_spec.toList ++
    (if ss.blend_table then [⟨attr, LineSpec.str kwname⟩] else [])

/-- One callback invocation of `build_rules_dict` (the closure passed to
`walk_schema`) on the accumulated `results`, for a node at `path` with
leaf data `ss`. -/
def build_rules_dict (results : RulesDict) (path : List String)
    (ss : SubSchema) : RulesDict :=
  if path.length > 1 ∧ path.head? = some "meta" ∧ "items" ∉ path then
    let path2 := trimPath path
    let attr := String.intercalate "." path2
    if ss.props then results
    else
      let result2 := (odGet results attr).getD [] ++ new_specs results attr ss
      if result2.length > 0 then odSet results attr result2 else results
  else results

/-- `_build_schema_rules_dict(schema)`: `walk_schema` drives the callback
over the schema leaves in traversal order; modelled as a fold of
`build_rules_dict` over the ordered list of visited `(path, subschema)`
leaves, starting from an empty ordered dict. -/
def build_schema_rules (visits : List (List String × SubSchema)) : RulesDict :=
  visits.foldl (fun res p => build_rules_dict res p.1 p.2) []

/-! ### Concrete instances used by the closed theorems -/

/-- A single-line rule spec `{"meta.a": {"rule": "first"}}`. -/
def demoLine : Line := ⟨"meta.a", LineSpec.dict [("rule", "first")]⟩

/-- The rule compiled from `demoLine`. -/
def demoRule : CompiledRule :=
  CompiledRule.triple "meta.a" "meta.a" (some Func.first)

/-- A fresh `KeywordRules` whose spec dict holds exactly `demoLine`. -/
def demoKR : KeywordRules :=
  { instrument := "nircam",
    rule_specs := [("meta.a", [demoLine])],
    rule_objects := [], rules := [], section_names := [] }

/-- A `KwRule` that already holds a resolved rule. -/
def demoKwRuleResolved : KwRule :=
  { rule_spec := demoLine, rules := [demoRule],
    delete_kws := [], section_name := [] }

/-- An explicit schema-declared rule spec `{"meta.A": {"rule": "last"}}`. -/
def demoLineA : Line := ⟨"meta.A", LineSpec.dict [("rule", "last")]⟩

/-! ## Theorems -/

/-- Computation rule for `Except` bind on a success value. -/
theorem except_bind_ok {ε α β : Type} (a : α) (f : α → Except ε β) :
    (Except.ok a >>= f) = f a := rfl

/-- Computation rule for `Except` bind on an error value. -/
theorem except_bind_error {ε α β : Type} (e : ε) (f : α → Except ε β) :
    ((Except.error e : Except ε α) >>= f) = Except.error e := rfl

/-- `pure` of the `Except` monad is `Except.ok`. -/
theorem except_pure_eq_ok {ε α : Type} (a : α) :
    (pure a : Except ε α) = Except.ok a := rfl

/-- C7: `multi` returns `None` for a sequence with 0 unique values (in
particular on `[]`), the single unique element for exactly 1 unique
value, and the sentinel `"MULTIPLE"` for more than 1 unique value; it is
a total function (never raises). -/
theorem C7_multi_cases (vals : List String) :
    (vals.dedup.length = 0 → multi vals = none) ∧
    (∀ u, vals.dedup = [u] → multi vals = some u) ∧
    (vals.dedup.length > 1 → multi vals = some "MULTIPLE") ∧
    multi ([] : List String) = none := by
  refine ⟨?_, ?_, ?_, rfl⟩
  · intro h
    simp [multi, h]
  · intro u h
    simp [multi, h]
  · intro h
    have h0 : ¬ vals.dedup.length = 0 := by omega
    have h1 : ¬ vals.dedup.length = 1 := by omega
    simp [multi, h0, h1, h]

/-- C7 witness: the three cases of `C7_multi_cases` at concrete inputs. -/
theorem C7_multi_cases_witness :
    multi ([] : List String) = none ∧
    multi ["a", "a"] = some "a" ∧
    multi ["a", "b"] = some "MULTIPLE" :=
  ⟨(C7_multi_cases []).1 (by decide),
   (C7_multi_cases ["a", "a"]).2.1 "a" (by decide),
   (C7_multi_cases ["a", "b"]).2.2.1 (by decide)⟩

/-- C8: `first` returns the head and `last` the final element of a
non-empty sequence, and both return `None` on the empty sequence. -/
theorem C8_first_last (α : Type) :
    (∀ (items : List α) (h : items ≠ []),
        first items = some (items.head h) ∧
        last items = some (items.getLast h)) ∧
    first ([] : List α) = none ∧ last ([] : List α) = none := by
  refine ⟨?_, by simp [first], by simp [last]⟩
  intro items h
  constructor
  · simp only [first, ne_eq, List.length_eq_zero, h, not_false_iff, if_true]
    exact List.head?_eq_head h
  · simp only [last, ne_eq, List.length_eq_zero, h, not_false_iff, if_true]
    exact List.getLast?_eq_getLast_of_ne_nil h

/-- C8 witness: `first`/`last` on a concrete non-empty list. -/
theorem C8_first_last_witness :
    first [3, 7] = some 3 ∧ last [3, 7] = some 7 :=
  (C8_first_last Nat).1 [3, 7] (by decide)

/-- C9: rule interpretation never inspects the header instance: for one
raw rule-spec line, `interpret_entry` returns the same compiled rules and
section name whatever the header argument (even of a different type). -/
theorem C9_interpret_entry_header_independent {H1 H2 : Type}
    (line : Line) (h1 : H1) (h2 : H2) :
    interpret_entry line h1 = interpret_entry line h2 := rfl

/-- C10: a string-shaped table-column spec whose target contains
`"rule"` as a substring makes `interpret_attr_line` raise (`TypeError`
from indexing a string with the key `"rule"`), because the membership
test `"rule" in line_spec` on a string is a substring test. -/
theorem C10_str_target_with_rule_substring_raises (attr s : String)
    (hsub : pyInStr "rule" s = true) :
    interpret_attr_line attr (LineSpec.str s) = Except.error "TypeError" := by
  simp only [interpret_attr_line, hsub, if_true]
  rfl

/-- C10 witness: the spec `{"meta.x": "meta.rulename"}` raises. -/
theorem C10_str_target_witness :
    interpret_attr_line "meta.x" (LineSpec.str "meta.rulename") =
      Except.error "TypeError" :=
  C10_str_target_with_rule_substring_raises "meta.x" "meta.rulename" (by decide)

/-- C3 counterexample: an unregistered reduction name does not yield the
2-tuple `(path, path)`; the compiled rule is the 3-tuple
`(path, path, None)`, which differs structurally from the 2-tuple. -/
theorem C3_unregistered_name_counterexample :
    interpret_attr_line "meta.x" (LineSpec.dict [("rule", "bogus")]) =
      Except.ok [CompiledRule.triple "meta.x" "meta.x" none] ∧
    CompiledRule.triple "meta.x" "meta.x" none ≠
      CompiledRule.pair "meta.x" "meta.x" :=
  ⟨rfl, by decide⟩

/-- C3 (amended): a rule spec naming a non-empty reduction name that is
not registered in `blender_funcs` does not raise; it emits the single
3-tuple `(path, path, None)` (the function slot dropped to `None`). -/
theorem C3_unregistered_name_yields_triple_none (attr r : String)
    (hlen : r.length > 0) (hreg : lookupFunc r = none) :
    interpret_attr_line attr (LineSpec.dict [("rule", r)]) =
      Except.ok [CompiledRule.triple attr attr none] := by
  simp only [interpret_attr_line, List.lookup, beq_self_eq_true, if_true,
    except_pure_eq_ok, except_bind_ok]
  simp [hlen, hreg, appendUnique]

/-- C3 witness: the amended statement at a concrete unregistered name. -/
theorem C3_unregistered_name_witness :
    interpret_attr_line "meta.y" (LineSpec.dict [("rule", "bogus")]) =
      Except.ok [CompiledRule.triple "meta.y" "meta.y" none] :=
  C3_unregistered_name_yields_triple_none "meta.y" "bogus" (by decide) (by decide)

/-- C1: `interpret_rules` does not deduplicate across calls — the
duplicate check reads `rule_objects`, but nothing is ever appended to
`rule_objects`, so interpreting the same spec dict twice against the
same header appends the same compiled rule twice, and the resulting rule
list contains two structurally-identical tuples. -/
theorem C1_interpret_rules_duplicates :
    Except.map (fun s => s.rules)
        (Except.bind (interpret_rules (H := Unit) demoKR [()])
          (fun s => interpret_rules s [()])) =
      Except.ok [demoRule, demoRule] ∧
    ¬ ([demoRule, demoRule] : List CompiledRule).Nodup :=
  ⟨rfl, by decide⟩

/-- The `k` loop of `merge` collects, in input order, exactly the
rules missing from `rs`. -/
theorem merge_loop_eq_filter (rs : List CompiledRule)
    (other acc : List CompiledRule) :
    other.foldl (fun a r => if r ∈ rs then a else a ++ [r]) acc =
      acc ++ other.filter (fun r => decide (r ∉ rs)) := by
  induction other generalizing acc with
  | nil => simp
  | cons x t ih =>
      by_cases hx : x ∈ rs
      · simp [List.filter_cons, hx, ih]
      · simp [List.filter_cons, hx, ih]

/-- C6: merging a rule set into itself leaves it unchanged, and in
general `merge` appends, after the existing rules and preserving the
internal order of the input, exactly those input rules that are not already
present under structural tuple equality. -/
theorem C6_merge_spec (st : KeywordRules) (other : List CompiledRule) :
    merge st st.rules = st ∧
    (merge st other).rules =
      st.rules ++ other.filter (fun r => decide (r ∉ st.rules)) := by
  constructor
  · have hnil : st.rules.filter (fun r => decide (r ∉ st.rules)) = [] := by
      rw [List.filter_eq_nil_iff]
      intro a ha
      simp [ha]
    simp only [merge, merge_loop_eq_filter, List.nil_append, hnil,
      List.append_nil]
  · simp only [merge, merge_loop_eq_filter, List.nil_append]

/-- `upd_attr` keeps the attribute key and rewrites the value exactly
when the key contains `"meta"` and is present in the blended dict. -/
theorem upd_attr_eq {V : Type} (fbdict : List (String × V)) (k : String)
    (v : V) :
    upd_attr fbdict (k, v) =
      (k, if pyInStr "meta" k then (fbdict.lookup k).getD v else v) := by
  unfold upd_attr
  by_cases hm : pyInStr "meta" k
  · cases hfk : fbdict.lookup k <;> simp [hm, hfk]
  · simp [hm]

/-- Value of a single lookup after the `apply` update loop. -/
theorem apply_update_lookup {V : Type} (fbdict : List (String × V))
    (template : List (String × V)) (attr : String) :
    (apply_update template fbdict).lookup attr =
      (template.lookup attr).map
        (fun v => if pyInStr "meta" attr then (fbdict.lookup attr).getD v
                  else v) := by
  induction template with
  | nil => rfl
  | cons p t ih =>
      obtain ⟨k, v⟩ := p
      simp only [apply_update] at ih ⊢
      rw [List.map_cons, upd_attr_eq]
      by_cases h : k = attr
      · subst h
        simp [List.lookup]
      · have hbeq : (attr == k) = false := beq_eq_false_iff_ne.mpr (Ne.symm h)
        simp only [List.lookup, hbeq]
        exact ih

/-- C2 (amended): the update loop of `apply` never injects a path absent
from the template (the key sequence is unchanged, and lookups of absent
paths stay `None`); a pre-existing path is overwritten with the blended
value exactly when it contains `"meta"` as a substring and the blended
dict contains it, and keeps the template value otherwise. -/
theorem C2_apply_update_spec (V : Type)
    (template fbdict : List (String × V)) :
    ((apply_update template fbdict).map Prod.fst = template.map Prod.fst) ∧
    (∀ attr v, template.lookup attr = some v →
        (apply_update template fbdict).lookup attr =
          some (if pyInStr "meta" attr then (fbdict.lookup attr).getD v
                else v)) ∧
    (∀ attr, template.lookup attr = none →
        (apply_update template fbdict).lookup attr = none) := by
  refine ⟨?_, ?_, ?_⟩
  · unfold apply_update
    rw [List.map_map]
    apply List.map_congr_left
    intro p _
    obtain ⟨k, v⟩ := p
    simp [upd_attr_eq]
  · intro attr v hv
    rw [apply_update_lookup, hv]
    rfl
  · intro attr hattr
    rw [apply_update_lookup, hattr]
    rfl

/-- C2 witness: the amended update semantics at concrete inputs. -/
theorem C2_apply_update_spec_witness :
    (apply_update [("meta.a", 0)] [("meta.a", 9)]).lookup "meta.a" =
      some 9 ∧
    (apply_update ([("meta.a", 0)] : List (String × Nat))
        [("meta.a", 9)]).lookup "zzz" = none := by
  constructor
  · have h := (C2_apply_update_spec Nat [("meta.a", 0)]
      [("meta.a", 9)]).2.1 "meta.a" 0 (by decide)
    rw [h]
    decide
  · exact (C2_apply_update_spec Nat [("meta.a", 0)]
      [("meta.a", 9)]).2.2 "zzz" (by decide)

/-- C2 counterexample: a flattened path present in both the template and
the blended dict but not containing `"meta"` as a substring is NOT
overwritten, against the claim that every template path found in the
blended dict is overwritten. -/
theorem C2_nonmeta_not_overwritten :
    apply_update [("data.x", 0)] [("data.x", 1)] = [("data.x", 0)] ∧
    (0 : Nat) ≠ 1 :=
  ⟨rfl, by decide⟩

/-- C5: `KwRule.interpret` is first-success-wins: a `KwRule` already
holding a non-empty rule list is a fixed point of any further
`interpret` call and of a whole pass over any further header list, and
in a pass over an ordered header list, once the interpretation of a header
yields a state with rules, that state is the final state of the pass. -/
theorem C5_kwrule_first_success_wins (H : Type) :
    (∀ (s : KwRule) (h : H), s.rules ≠ [] →
        KwRule.interpret s h = Except.ok s) ∧
    (∀ (hs : List H) (s : KwRule), s.rules ≠ [] →
        hs.foldlM KwRule.interpret s = Except.ok s) ∧
    (∀ (h : H) (hs : List H) (s s2 : KwRule),
        KwRule.interpret s h = Except.ok s2 → s2.rules ≠ [] →
        (h :: hs).foldlM KwRule.interpret s = Except.ok s2) := by
  have part1 : ∀ (s : KwRule) (h : H), s.rules ≠ [] →
      KwRule.interpret s h = Except.ok s := by
    intro s h hne
    simp [KwRule.interpret, hne, except_pure_eq_ok]
  have part2 : ∀ (hs : List H) (s : KwRule), s.rules ≠ [] →
      hs.foldlM KwRule.interpret s = Except.ok s := by
    intro hs
    induction hs with
    | nil => intro s _; rfl
    | cons h t ih =>
        intro s hne
        rw [List.foldlM_cons, part1 s h hne, except_bind_ok]
        exact ih s hne
  refine ⟨part1, part2, ?_⟩
  intro h hs s s2 hint hne
  rw [List.foldlM_cons, hint, except_bind_ok]
  exact part2 hs s2 hne

/-- C5 witness: a resolved `KwRule` is untouched by a further header and
by a further pass, and a pass starting from a fresh `KwRule` ends in the
state produced by its first productive header. -/
theorem C5_kwrule_witness :
    KwRule.interpret demoKwRuleResolved () = Except.ok demoKwRuleResolved ∧
    [(), ()].foldlM KwRule.interpret demoKwRuleResolved =
      Except.ok demoKwRuleResolved ∧
    [(), ()].foldlM KwRule.interpret (KwRule.mk0 demoLine) =
      Except.ok demoKwRuleResolved :=
  ⟨(C5_kwrule_first_success_wins Unit).1 demoKwRuleResolved () (by decide),
   (C5_kwrule_first_success_wins Unit).2.1 [(), ()] demoKwRuleResolved
     (by decide),
   (C5_kwrule_first_success_wins Unit).2.2 () [()] (KwRule.mk0 demoLine)
     demoKwRuleResolved rfl (by decide)⟩

/-- Reading back the key just written by an ordered-dict update. -/
theorem odGet_odSet_self (d : RulesDict) (k : String) (v : List Line) :
    odGet (odSet d k v) k = some v := by
  induction d with
  | nil => simp [odSet, odGet]
  | cons p rest ih =>
      by_cases h : p.1 = k
      · simp [odSet, odGet, h]
      · simp [odSet, odGet, h, ih]

/-- An ordered-dict update leaves every other key untouched. -/
theorem odGet_odSet_ne (d : RulesDict) (k k2 : String) (v : List Line)
    (h : k2 ≠ k) :
    odGet (odSet d k v) k2 = odGet d k2 := by
  induction d with
  | nil => simp [odSet, odGet, Ne.symm h]
  | cons p rest ih =>
      by_cases hp : p.1 = k
      · simp [odSet, odGet, hp, Ne.symm h]
      · simp [odSet, odGet, hp, ih]

/-- One extractor callback either leaves the dict unchanged or rewrites
a single key to its previous list extended on the right. -/
theorem build_rules_dict_shape (res : RulesDict) (path : List String)
    (ss : SubSchema) :
    build_rules_dict res path ss = res ∨
    ∃ attr ext, build_rules_dict res path ss =
      odSet res attr ((odGet res attr).getD [] ++ ext) := by
  simp only [build_rules_dict]
  split
  · split
    · exact Or.inl rfl
    · split
      · exact Or.inr ⟨_, _, rfl⟩
      · exact Or.inl rfl
  · exact Or.inl rfl

/-- C4: on a schema where attribute `A` declares `blend_rule: "last"`
and attribute `B` declares no `blend_rule`, the extractor derives an
explicit `last` rule for `A` and the default `first` rule for `B`;
any spec already recorded for a path (in particular an explicit rule)
survives every later leaf visit, so an explicit rule is never replaced
by the default; and a visit of a leaf without `blend_rule` (and without
`blend_table`) leaves a path with a non-empty recorded spec list
entirely unchanged — the default is recorded only if nothing has been
recorded yet. -/
theorem C4_schema_rules_spec :
    build_schema_rules
        [(["meta", "A"], ⟨false, some "last", false, none⟩),
         (["meta", "B"], ⟨false, none, false, none⟩)] =
      [("meta.A", [⟨"meta.A", LineSpec.dict [("rule", "last")]⟩]),
       ("meta.B", [⟨"meta.B", LineSpec.dict [("rule", "first")]⟩])] ∧
    (∀ (res : RulesDict) (path : List String) (ss : SubSchema)
        (attr : String) (l : List Line) (line : Line),
        odGet res attr = some l → line ∈ l →
        line ∈ (odGet (build_rules_dict res path ss) attr).getD []) ∧
    (∀ (res : RulesDict) (path : List String) (ss : SubSchema),
        ss.blend_rule = none → ss.blend_table = false →
        pyFalsy (odGet res (String.intercalate "." (trimPath path))) = false →
        odGet (build_rules_dict res path ss)
            (String.intercalate "." (trimPath path)) =
          odGet res (String.intercalate "." (trimPath path))) := by
  refine ⟨by rfl, ?_, ?_⟩
  · intro res path ss attr l line hget hmem
    rcases build_rules_dict_shape res path ss with heq | ⟨attr2, ext, heq⟩
    · rw [heq, hget]
      simpa using hmem
    · by_cases hk : attr = attr2
      · subst hk
        rw [heq, odGet_odSet_self, hget]
        simp [hmem]
      · rw [heq, odGet_odSet_ne _ _ _ _ hk, hget]
        simpa using hmem
  · intro res path ss hbr hbt hfalsy
    obtain ⟨l, hl, hlne⟩ : ∃ l,
        odGet res (String.intercalate "." (trimPath path)) = some l ∧
          l ≠ [] := by
      cases hg : odGet res (String.intercalate "." (trimPath path)) with
      | none => rw [hg] at hfalsy; simp [pyFalsy] at hfalsy
      | some l =>
          refine ⟨l, rfl, ?_⟩
          rw [hg] at hfalsy
          simp only [pyFalsy] at hfalsy
          intro hcontra
          rw [hcontra] at hfalsy
          simp at hfalsy
    simp only [build_rules_dict]
    split
    · split
      · rfl
      · have hns : new_specs res (String.intercalate "." (trimPath path))
            ss = [] := by
          simp [new_specs, hbr, hbt, hfalsy]
        rw [hns, List.append_nil, hl]
        simp only [Option.getD_some]
        rw [if_pos (List.length_pos.mpr hlne)]
        exact odGet_odSet_self res _ l
    · rfl

/-- C4 witness: a leaf visit without `blend_rule` neither removes a
recorded explicit rule nor records the default when a spec is already
present. -/
theorem C4_schema_rules_witness :
    demoLineA ∈ (odGet (build_rules_dict [("meta.A", [demoLineA])]
        ["meta", "A"] ⟨false, none, false, none⟩) "meta.A").getD [] ∧
    odGet (build_rules_dict [("meta.A", [demoLineA])] ["meta", "A"]
        ⟨false, none, false, none⟩) "meta.A" =
      odGet [("meta.A", [demoLineA])] "meta.A" :=
  ⟨C4_schema_rules_spec.2.1 [("meta.A", [demoLineA])] ["meta", "A"]
      ⟨false, none, false, none⟩ "meta.A" [demoLineA] demoLineA rfl
      (by decide),
   C4_schema_rules_spec.2.2 [("meta.A", [demoLineA])] ["meta", "A"]
      ⟨false, none, false, none⟩ rfl rfl (by decide)⟩

end BlendRules
